/-
Verification of the 3D-kartan measurement tools.

Shallow embedding of:
  * src/webpack-5/src/tools/measure/measure-distance.js (the measure-distance
    drawing state machine: vertex buffer, floating point, preview entities,
    finalization, Escape-undo, stop),
  * src/tools/measure/measure-height (two-point height tool: computeMetrics,
    click handler, finalizeHeight),
  * the terrain-profile tool (profile-id counter and deletion).

Points are modelled as real triples; Cesium's Cartesian3.distance is the
Euclidean distance.  The Cesium entity collection is modelled as a list of
entity ids allocated by a fresh counter; entity *properties* that no claim
inspects (label text strings, marker positions updated via setValue) are not
tracked, only the presence of each entity in the collection and, for
polylines, their frozen position lists.
-/
import Mathlib

namespace Kartan

/-- A Cesium `Cartesian3`: a point in 3D world space. -/
abbrev Point : Type := ℝ × ℝ × ℝ

/-- Model of `Cartesian3.distance`: Euclidean distance between two points. -/
noncomputable def dist3 (p q : Point) : ℝ :=
  Real.sqrt ((p.1 - q.1) ^ 2 + (p.2.1 - q.2.1) ^ 2 + (p.2.2 - q.2.2) ^ 2)

/-- Model of `computeLength` from measure-distance.js: the loop
`for (i = 1; i < positions.length; i++) sum += Cartesian3.distance(positions[i-1], positions[i])`,
written as structural recursion over the position list. -/
noncomputable def computeLength : List Point → ℝ
  | [] => 0
  | [_] => 0
  | p :: q :: rest => dist3 p q + computeLength (q :: rest)

/-- Spec-side definition: "sum of Euclidean distances between consecutive
vertices", as the sum over the list of consecutive pairs. -/
noncomputable def specPolylineLength (l : List Point) : ℝ :=
  ((l.zip l.tail).map fun pr => dist3 pr.1 pr.2).sum

/-- A Cesium `Cartographic`: geodetic longitude/latitude (radians) and height
(metres) of a point relative to the ellipsoid. -/
structure Cartographic where
  longitude : ℝ
  latitude : ℝ
  height : ℝ

/-- Result record of `computeMetrics` in the measure-height tool. -/
structure Metrics where
  horizontal : ℝ
  heightDiff : ℝ
  diagonal : ℝ
  proj : Point

/-- Model of `computeMetrics(p1, p2)` from the measure-height tool, parametric in the
ellipsoid conversions `Cartographic.fromCartesian` (here `fromCartesian`) and
`Cartesian3.fromRadians` (here `fromRadians`), which belong to the 3D engine:
  heightDiff = |c2.height - c1.height|,
  proj       = fromRadians(c2.longitude, c2.latitude, c1.height),
  horizontal = distance(p1, proj),
  diagonal   = distance(p1, p2). -/
noncomputable def computeMetrics (fromCartesian : Point → Cartographic)
    (fromRadians : ℝ → ℝ → ℝ → Point) (p1 p2 : Point) : Metrics :=
  let c1 := fromCartesian p1
  let c2 := fromCartesian p2
  let heightDiff := |c2.height - c1.height|
  let proj := fromRadians c2.longitude c2.latitude c1.height
  let horizontal := dist3 p1 proj
  let diagonal := dist3 p1 p2
  ⟨horizontal, heightDiff, diagonal, proj⟩

/-- Spec-side: "vertical delta = absolute height difference". -/
noncomputable def specVertical (fromCartesian : Point → Cartographic)
    (p1 p2 : Point) : ℝ :=
  |(fromCartesian p2).height - (fromCartesian p1).height|

/-- Spec-side: "the projection of p2 onto p1's height level": same longitude
and latitude as p2, the height of p1. -/
noncomputable def specProjection (fromCartesian : Point → Cartographic)
    (fromRadians : ℝ → ℝ → ℝ → Point) (p1 p2 : Point) : Point :=
  fromRadians (fromCartesian p2).longitude (fromCartesian p2).latitude
    (fromCartesian p1).height

/-- Spec-side: "horizontal = planar distance after projecting the second point
onto the first point's height". -/
noncomputable def specHorizontal (fromCartesian : Point → Cartographic)
    (fromRadians : ℝ → ℝ → ℝ → Point) (p1 p2 : Point) : ℝ :=
  dist3 p1 (specProjection fromCartesian fromRadians p1 p2)

/-- Spec-side: "diagonal = direct 3D distance between the two points". -/
noncomputable def specDiagonal (p1 p2 : Point) : ℝ :=
  dist3 p1 p2

/- Entity ids are natural numbers: the Cesium entity collection is modelled as
the list of ids of the entities it currently holds, with a fresh-id allocation
counter. -/

/-- The closure state of `initMeasureDistance`:
`isDrawing`, `pts`, `floatPt`, `lineEnt`, `dynamicLabel`, `markerEntities`,
`measuredLines`, `measuredLabels`, `measuredMarkers`, plus the viewer entity
collection (`entities`) and its allocator (`nextId`).  `lineShow` mirrors
`lineEnt.polyline.show` (set to `false` by the Escape handler).  Finalized
polylines keep their frozen position list (`pts.slice()`). -/
structure DistState where
  isDrawing : Bool
  pts : List Point
  floatPt : Option Nat
  lineEnt : Option Nat
  dynamicLabel : Option Nat
  lineShow : Bool
  markerEntities : List Nat
  measuredLines : List (Nat × List Point)
  measuredLabels : List Nat
  measuredMarkers : List (List Nat)
  entities : List Nat
  nextId : Nat

/-- Initial closure state of the tool. -/
def initState : DistState :=
  { isDrawing := false, pts := [], floatPt := none, lineEnt := none,
    dynamicLabel := none, lineShow := true, markerEntities := [],
    measuredLines := [], measuredLabels := [], measuredMarkers := [],
    entities := [], nextId := 0 }

/-- Model of `viewer.entities.add(...)`: allocate a fresh id and append it to the
collection. -/
def addEntity (s : DistState) : Nat × DistState :=
  (s.nextId, { s with entities := s.entities ++ [s.nextId], nextId := s.nextId + 1 })

/-- Model of `viewer.entities.remove(e)`: remove the entity if present (a no-op on an
entity that is not in the collection). -/
def removeId (o : Option Nat) (es : List Nat) : List Nat :=
  match o with
  | none => es
  | some i => es.erase i

/-- Model of `createMarker(position)`: add a point entity and push it onto
`markerEntities`; returns the new marker. -/
def createMarker (s : DistState) : Nat × DistState :=
  let (m, s1) := addEntity s
  (m, { s1 with markerEntities := s1.markerEntities ++ [m] })

/-- The LEFT_CLICK handler.  `pos?` is the result of
`viewer.scene.pickPosition(evt.position)` (`none` when the pick fails). -/
def leftClick (pos? : Option Point) (s : DistState) : DistState :=
  match pos? with
  | none => s
  | some pos =>
    if s.pts.length = 0 then
      -- first click: push the vertex twice (committed + floating), create the
      -- floating marker, the dynamic polyline and the dynamic label
      let s1 := { s with pts := s.pts ++ [pos, pos] }
      let (m, s2) := createMarker s1
      let s3 := { s2 with floatPt := some m }
      let (l, s4) := addEntity s3
      let s5 := { s4 with lineEnt := some l, lineShow := true }
      let (d, s6) := addEntity s5
      { s6 with dynamicLabel := some d }
    else
      -- subsequent click: fix the floating point, create a new floating marker,
      -- push a new floating point
      let s1 := { s with pts := s.pts.set (s.pts.length - 1) pos }
      let (m, s2) := createMarker s1
      { s2 with floatPt := some m, pts := s2.pts ++ [pos] }

/-- The MOUSE_MOVE handler: when a floating marker exists and the pick
resolves, overwrite the last buffer element with the cursor position.  (The
marker-position and dynamic-label-text property writes are not tracked.)  On an
empty buffer `pts[pts.length - 1] = pos` writes the non-index property `-1`
and leaves the array unchanged, which `List.set [] 0 pos = []` mirrors. -/
def mouseMove (pos? : Option Point) (s : DistState) : DistState :=
  match s.floatPt with
  | none => s
  | some _ =>
    match pos? with
    | none => s
    | some pos => { s with pts := s.pts.set (s.pts.length - 1) pos }

/-- Model of `finalizeLine()`: remove the floating marker, preview line and dynamic
label entities; add the permanent polyline (frozen `pts.slice()`) and its
label; snapshot the markers; reset `pts` and `markerEntities`. -/
def finalizeLine (s : DistState) : DistState :=
  let es1 := removeId s.floatPt s.entities
  let es2 := removeId s.lineEnt es1
  let es3 := removeId s.dynamicLabel es2
  let lineId := s.nextId
  let labelId := s.nextId + 1
  { s with
    floatPt := none, lineEnt := none, dynamicLabel := none,
    entities := es3 ++ [lineId, labelId], nextId := s.nextId + 2,
    measuredLines := s.measuredLines ++ [(lineId, s.pts)],
    measuredMarkers := s.measuredMarkers ++ [s.markerEntities],
    measuredLabels := s.measuredLabels ++ [labelId],
    pts := [], markerEntities := [] }

/-- The LEFT_DOUBLE_CLICK handler: `if (pts.length < 2) return; finalizeLine()`. -/
def dblClick (s : DistState) : DistState :=
  if s.pts.length < 2 then s else finalizeLine s

/-- Model of `escHandler`: while drawing with a non-empty buffer, pop the last vertex
and the last marker (removing its entity), and hide the preview line once
fewer than 2 points remain. -/
def escHandler (s : DistState) : DistState :=
  if s.isDrawing = false then s
  else if s.pts.length = 0 then s
  else
    let pts' := s.pts.dropLast
    let es' := removeId s.markerEntities.getLast? s.entities
    let show' := if pts'.length < 2 ∧ s.lineEnt.isSome then false else s.lineShow
    { s with
      pts := pts', markerEntities := s.markerEntities.dropLast,
      entities := es', lineShow := show' }

/-- Model of `stopDrawing()`: destroy the handler, remove the dynamic label and all
in-progress markers, clear the buffer.  The preview polyline entity
(`lineEnt`) is NOT removed and the `floatPt`/`lineEnt` variables are not
reset. -/
def stopDrawing (s : DistState) : DistState :=
  let es1 := removeId s.dynamicLabel s.entities
  let es2 := s.markerEntities.foldl (fun es m => es.erase m) es1
  { s with
    isDrawing := false, dynamicLabel := none, markerEntities := [],
    entities := es2, pts := [] }

/-- Model of `startDrawing()`: attach the handler and reset the in-progress state.
(`dynamicLabel` is not reset here; it is nulled by stop/finalize.) -/
def startDrawing (s : DistState) : DistState :=
  { s with
    isDrawing := true, pts := [], floatPt := none, lineEnt := none,
    markerEntities := [] }

/-- Model of `toggleDrawing()` (the start/stop button). -/
def toggleDrawing (s : DistState) : DistState :=
  if s.isDrawing then stopDrawing s else startDrawing s

/-- Model of `clearAll()`: remove all measured lines, labels and markers, empty
`measuredLines` and `measuredLabels` (the source does not empty
`measuredMarkers`), then `stopDrawing()`. -/
def clearAll (s : DistState) : DistState :=
  let es1 := s.measuredLines.foldl (fun es pr => es.erase pr.1) s.entities
  let es2 := s.measuredLabels.foldl (fun es m => es.erase m) es1
  let es3 := s.measuredMarkers.foldl (fun es ml => ml.foldl (fun es m => es.erase m) es) es2
  stopDrawing { s with entities := es3, measuredLines := [], measuredLabels := [] }

/-- The events the tool reacts to.  Pointer events carry the result of the
position pick (`none` = pick miss). -/
inductive Ev where
  | toggle
  | stop
  | clear
  | click (pos : Option Point)
  | move (pos : Option Point)
  | dblclick
  | esc

/-- One step of the tool.  The ScreenSpaceEventHandler (clicks, moves,
double-clicks) exists only while drawing; the Escape listener checks
`isDrawing` itself. -/
def step : Ev → DistState → DistState
  | .toggle, s => toggleDrawing s
  | .stop, s => stopDrawing s
  | .clear, s => clearAll s
  | .click p, s => if s.isDrawing then leftClick p s else s
  | .move p, s => if s.isDrawing then mouseMove p s else s
  | .dblclick, s => if s.isDrawing then dblClick s else s
  | .esc, s => escHandler s

/-- Run a list of events from the initial state. -/
def run (es : List Ev) : DistState :=
  es.foldl (fun s e => step e s) initState

/-- States reachable from the initial closure state. -/
inductive Reachable : DistState → Prop where
  | init : Reachable initState
  | step (e : Ev) {s : DistState} (h : Reachable s) : Reachable (step e s)

/-- Applying a sequence of primary clicks (all resolving to world positions)
to the tool. -/
def clicks (ps : List Point) (s : DistState) : DistState :=
  ps.foldl (fun s p => step (Ev.click (some p)) s) s

/-- All entity ids belonging to finalized measurements: permanent polylines,
permanent labels, and the snapshotted marker groups. -/
def finalIds (s : DistState) : List Nat :=
  s.measuredLines.map Prod.fst ++ s.measuredLabels ++ s.measuredMarkers.flatten

/-- Invariant of the measure-distance closure state, preserved by every
event. -/
structure Inv (s : DistState) : Prop where
  idle_pts : s.isDrawing = false → s.pts = []
  idle_label : s.isDrawing = false → s.dynamicLabel = none
  idle_markers : s.isDrawing = false → s.markerEntities = []
  float_of_pts : s.isDrawing = true → s.pts ≠ [] → ∃ i, s.floatPt = some i
  ent_nodup : s.entities.Nodup
  ent_lt : ∀ i ∈ s.entities, i < s.nextId
  marker_lt : ∀ i ∈ s.markerEntities, i < s.nextId
  float_lt : ∀ i, s.floatPt = some i → i < s.nextId
  line_lt : ∀ i, s.lineEnt = some i → i < s.nextId
  label_lt : ∀ i, s.dynamicLabel = some i → i < s.nextId
  fin_lt : ∀ i ∈ finalIds s, i < s.nextId
  finLL_mem : ∀ i ∈ s.measuredLines.map Prod.fst ++ s.measuredLabels, i ∈ s.entities
  fin_marker : ∀ i ∈ finalIds s, i ∉ s.markerEntities
  fin_label : ∀ i ∈ finalIds s, s.dynamicLabel ≠ some i
  fin_float : ∀ i ∈ finalIds s, s.floatPt ≠ some i
  fin_line : ∀ i ∈ finalIds s, s.lineEnt ≠ some i
  line_mem : ∀ i, s.lineEnt = some i → i ∈ s.entities
  line_marker : ∀ i, s.lineEnt = some i → i ∉ s.markerEntities
  line_label : ∀ i, s.lineEnt = some i → s.dynamicLabel ≠ some i
  float_cases : ∀ i, s.floatPt = some i → i ∈ s.markerEntities ∨ i ∉ s.entities

/-! ### Two-point measure-height tool -/

/-- Closure state of `initMeasureHeight`: the point buffer, the temporary
click markers, the permanent measurement entities, and the entity
collection. -/
structure HState where
  isDrawing : Bool
  pts : List Point
  tempMarkerEnts : List Nat
  measuredLines : List (Nat × List Point)
  measuredLabels : List Nat
  entities : List Nat
  nextId : Nat

/-- Initial closure state of the measure-height tool. -/
def hInit : HState :=
  { isDrawing := false, pts := [], tempMarkerEnts := [],
    measuredLines := [], measuredLabels := [], entities := [], nextId := 0 }

/-- Model of `finalizeHeight()`: remove the two temporary markers, add the three
permanent polylines (diagonal `[p1, p2]`, horizontal `[p1, proj]`, vertical
`[proj, p2]`) and their three labels, then reset the buffer.  `fc`/`fr` are
the ellipsoid conversions used by `computeMetrics`.  The source destructures
`const [p1, p2] = pts`; it is called only when the buffer holds exactly two
points. -/
noncomputable def finalizeHeight (fc : Point → Cartographic)
    (fr : ℝ → ℝ → ℝ → Point) (s : HState) : HState :=
  match s.pts with
  | [p1, p2] =>
    let es1 := s.tempMarkerEnts.foldl (fun es m => es.erase m) s.entities
    let mets := computeMetrics fc fr p1 p2
    let d := s.nextId
    let hz := s.nextId + 1
    let v := s.nextId + 2
    let ld := s.nextId + 3
    let lh := s.nextId + 4
    let lv := s.nextId + 5
    { s with
      tempMarkerEnts := [],
      entities := es1 ++ [d, hz, v, ld, lh, lv],
      nextId := s.nextId + 6,
      measuredLines := s.measuredLines ++
        [(d, [p1, p2]), (hz, [p1, mets.proj]), (v, [mets.proj, p2])],
      measuredLabels := s.measuredLabels ++ [ld, lh, lv],
      pts := [] }
  | _ => s

/-- The measure-height LEFT_CLICK handler: push the picked point, add its
marker, and finalize as soon as two points exist.  `pos?` is the result of
`pickWorldPosition` (`none` when both picks fail). -/
noncomputable def heightLeftClick (fc : Point → Cartographic)
    (fr : ℝ → ℝ → ℝ → Point) (pos? : Option Point) (s : HState) : HState :=
  match pos? with
  | none => s
  | some pos =>
    let s1 := { s with
                pts := s.pts ++ [pos],
                tempMarkerEnts := s.tempMarkerEnts ++ [s.nextId],
                entities := s.entities ++ [s.nextId],
                nextId := s.nextId + 1 }
    if s1.pts.length = 2 then finalizeHeight fc fr s1 else s1

/-- Model of `stopDrawing()` of the measure-height tool. -/
def hStop (s : HState) : HState :=
  { s with
    isDrawing := false,
    entities := s.tempMarkerEnts.foldl (fun es m => es.erase m) s.entities,
    tempMarkerEnts := [], pts := [] }

/-- Model of `startDrawing()` of the measure-height tool. -/
def hStart (s : HState) : HState :=
  { s with isDrawing := true, pts := [], tempMarkerEnts := [] }

/-- Model of `clearAll()` of the measure-height tool: stop first, then remove all
measured lines and labels. -/
def hClear (s : HState) : HState :=
  let s1 := hStop s
  let es1 := s1.measuredLines.foldl (fun es pr => es.erase pr.1) s1.entities
  let es2 := s1.measuredLabels.foldl (fun es m => es.erase m) es1
  { s1 with entities := es2, measuredLines := [], measuredLabels := [] }

/-- Events of the measure-height tool. -/
inductive HEv where
  | toggle
  | stop
  | clear
  | click (pos : Option Point)

/-- One step of the measure-height tool; the click handler exists only while
drawing. -/
noncomputable def hStep (fc : Point → Cartographic) (fr : ℝ → ℝ → ℝ → Point) :
    HEv → HState → HState
  | .toggle, s => if s.isDrawing then hStop s else hStart s
  | .stop, s => hStop s
  | .clear, s => hClear s
  | .click p, s => if s.isDrawing then heightLeftClick fc fr p s else s

/-- States of the measure-height tool reachable from its initial state. -/
inductive HReachable (fc : Point → Cartographic) (fr : ℝ → ℝ → ℝ → Point) :
    HState → Prop where
  | init : HReachable fc fr hInit
  | step (e : HEv) {s : HState} (h : HReachable fc fr s) :
      HReachable fc fr (hStep fc fr e s)

/-! ### Terrain-profile tool: profile identifiers -/

/-- Model of `createNewProfileId()`: `profileCounter++; return "G" + profileCounter`. -/
def createNewProfileId (counter : Nat) : String × Nat :=
  ("G" ++ Nat.repr (counter + 1), counter + 1)

/-- The terrain-profile session state relevant to profile identifiers: the
module-level `profileCounter`, the `profiles` list (by id), and the history
of every id handed out by `createNewProfileId` (for stating distinctness). -/
structure ProfileState where
  counter : Nat
  profiles : List String
  created : List String

/-- Initial terrain-profile session state (`profileCounter = 0`,
`profiles = []`). -/
def pInit : ProfileState :=
  { counter := 0, profiles := [], created := [] }

/-- Profile creation: take a fresh id from `createNewProfileId` and push the
profile. -/
def createProfile (s : ProfileState) : ProfileState :=
  let (id, c) := createNewProfileId s.counter
  { counter := c, profiles := s.profiles ++ [id], created := s.created ++ [id] }

/-- The delete-button handler: find the profile by id and splice it out of
`profiles` (a no-op when the id is not present); `profileCounter` is not
touched. -/
def deleteProfile (id : String) (s : ProfileState) : ProfileState :=
  { s with profiles := s.profiles.erase id }

/-- Profile-session events. -/
inductive PEv where
  | create
  | delete (id : String)

/-- One profile-session step. -/
def pStep : PEv → ProfileState → ProfileState
  | .create, s => createProfile s
  | .delete id, s => deleteProfile id s

/-- Run a list of profile-session events from the initial state. -/
def pRun (es : List PEv) : ProfileState :=
  es.foldl (fun s e => pStep e s) pInit

/-- Number of create events in a profile-session event list. -/
def createCount : List PEv → Nat
  | [] => 0
  | .create :: es => createCount es + 1
  | .delete _ :: es => createCount es

/-- The decimal digit characters of `n`, most significant first: the list
that `Nat.toDigitsCore 10` produces once its fuel suffices. -/
def decChars (n : Nat) : List Char :=
  if _h : n < 10 then [Nat.digitChar n]
  else decChars (n / 10) ++ [Nat.digitChar (n % 10)]
decreasing_by exact Nat.div_lt_self (by omega) (by omega)

/-- The id handed to the n-th created profile (`n` counted from 1). -/
def profileIdOf (n : Nat) : String :=
  "G" ++ Nat.repr n

theorem decChars_lt {n : Nat} (hn : n < 10) : decChars n = [Nat.digitChar n] := by
  rw [decChars, dif_pos hn]

theorem decChars_ge {n : Nat} (hn : ¬ n < 10) :
    decChars n = decChars (n / 10) ++ [Nat.digitChar (n % 10)] := by
  rw [decChars, dif_neg hn]

theorem decChars_ne_nil (n : Nat) : decChars n ≠ [] := by
  by_cases hn : n < 10
  · rw [decChars_lt hn]; simp
  · rw [decChars_ge hn]; simp

theorem toDigitsCore_eq_decChars :
    ∀ (f n : Nat) (acc : List Char), n < f →
      Nat.toDigitsCore 10 f n acc = decChars n ++ acc := by
  intro f
  induction f with
  | zero => intro n acc h; omega
  | succ fuel ih =>
    intro n acc h
    rw [Nat.toDigitsCore]
    by_cases h10 : n / 10 = 0
    · have hlt : n < 10 := by omega
      simp only [h10, if_true]
      rw [decChars_lt hlt, Nat.mod_eq_of_lt hlt]
      rfl
    · simp only [h10, if_false]
      rw [ih (n / 10) _ (by omega)]
      rw [decChars_ge (by omega : ¬ n < 10)]
      simp

theorem repr_eq_decChars (n : Nat) : Nat.repr n = (decChars n).asString := by
  show (Nat.toDigits 10 n).asString = _
  unfold Nat.toDigits
  rw [toDigitsCore_eq_decChars (n + 1) n [] (by omega)]
  simp

theorem digitChar_inj_lt :
    ∀ a ∈ Finset.range 10, ∀ b ∈ Finset.range 10,
      Nat.digitChar a = Nat.digitChar b → a = b := by decide

theorem decChars_inj : ∀ m n : Nat, decChars m = decChars n → m = n := by
  intro m
  induction m using Nat.strong_induction_on with
  | _ m ih =>
    intro n h
    by_cases hm : m < 10 <;> by_cases hn : n < 10
    · rw [decChars_lt hm, decChars_lt hn] at h
      simp only [List.cons.injEq, and_true] at h
      exact digitChar_inj_lt m (Finset.mem_range.mpr hm) n (Finset.mem_range.mpr hn) h
    · rw [decChars_lt hm, decChars_ge hn] at h
      have hlen := congrArg List.length h
      simp at hlen
      exact absurd hlen (decChars_ne_nil _)
    · rw [decChars_ge hm, decChars_lt hn] at h
      have hlen := congrArg List.length h
      simp at hlen
      exact absurd hlen (decChars_ne_nil _)
    · rw [decChars_ge hm, decChars_ge hn] at h
      obtain ⟨h1, h2⟩ := List.append_inj' h (by simp)
      simp only [List.cons.injEq, and_true] at h2
      have hmod : m % 10 = n % 10 :=
        digitChar_inj_lt _ (Finset.mem_range.mpr (by omega)) _
          (Finset.mem_range.mpr (by omega)) h2
      have hdiv : m / 10 = n / 10 := ih (m / 10) (by omega) _ h1
      omega

theorem natRepr_injective : Function.Injective Nat.repr := by
  intro a b h
  rw [repr_eq_decChars, repr_eq_decChars] at h
  exact decChars_inj a b (List.asString_inj.mp h)

theorem profileIdOf_injective : Function.Injective profileIdOf := by
  intro a b h
  apply natRepr_injective
  have hd := congrArg String.data h
  simpa [profileIdOf, String.data_append, String.ext_iff] using hd

theorem computeLength_eq_spec (l : List Kartan.Point) :
    Kartan.computeLength l = Kartan.specPolylineLength l := by
  induction l with
  | nil => simp [Kartan.computeLength, Kartan.specPolylineLength]
  | cons p rest ih =>
    cases rest with
    | nil => simp [Kartan.computeLength, Kartan.specPolylineLength]
    | cons q rest' =>
      simp [Kartan.computeLength, Kartan.specPolylineLength] at ih ⊢
      rw [ih]

theorem computeLength_example :
    Kartan.computeLength [((0 : ℝ), (0 : ℝ), (0 : ℝ)), (3, 0, 0), (3, 4, 0)] = 7 := by
  have h1 : Kartan.dist3 ((0 : ℝ), (0 : ℝ), (0 : ℝ)) (3, 0, 0) = 3 := by
    unfold Kartan.dist3
    rw [show ((0 : ℝ) - 3) ^ 2 + ((0 : ℝ) - 0) ^ 2 + ((0 : ℝ) - 0) ^ 2 = 3 ^ 2 by norm_num]
    exact Real.sqrt_sq (by norm_num)
  have h2 : Kartan.dist3 ((3 : ℝ), (0 : ℝ), (0 : ℝ)) (3, 4, 0) = 4 := by
    unfold Kartan.dist3
    rw [show ((3 : ℝ) - 3) ^ 2 + ((0 : ℝ) - 4) ^ 2 + ((0 : ℝ) - 0) ^ 2 = 4 ^ 2 by norm_num]
    exact Real.sqrt_sq (by norm_num)
  simp only [Kartan.computeLength, h1, h2]
  norm_num

theorem pRun_counter_created :
    ∀ (es : List PEv) (s : ProfileState),
      s.created = (List.range s.counter).map (fun k => profileIdOf (k + 1)) →
      (es.foldl (fun s e => pStep e s) s).counter = s.counter + createCount es ∧
      (es.foldl (fun s e => pStep e s) s).created =
        (List.range (s.counter + createCount es)).map (fun k => profileIdOf (k + 1)) := by
  intro es
  induction es with
  | nil => intro s hs; simpa [createCount] using hs
  | cons e es ih =>
    intro s hs
    cases e with
    | create =>
      have hgood : (pStep PEv.create s).created =
          (List.range (pStep PEv.create s).counter).map (fun k => profileIdOf (k + 1)) := by
        simp [pStep, createProfile, createNewProfileId, hs, List.range_succ, profileIdOf]
      obtain ⟨h1, h2⟩ := ih (pStep PEv.create s) hgood
      have hc : (pStep PEv.create s).counter = s.counter + 1 := rfl
      have harith : s.counter + 1 + createCount es = s.counter + (createCount es + 1) := by
        omega
      simp only [List.foldl_cons, createCount]
      rw [h1, h2, hc, harith]
      exact ⟨rfl, rfl⟩
    | delete id =>
      have hgood : (pStep (PEv.delete id) s).created =
          (List.range (pStep (PEv.delete id) s).counter).map (fun k => profileIdOf (k + 1)) := by
        simpa [pStep, deleteProfile] using hs
      have := ih (pStep (PEv.delete id) s) hgood
      simpa [pStep, deleteProfile, createCount] using this

/-- C9: in the terrain-profile tool, for every sequence of profile creations
and deletions within a session, the n-th created profile receives the
identifier "G" followed by n; the creation counter is never decremented or
reset by deletion, so every profile identifier in a session is distinct and an
identifier is never reused after its profile is deleted. -/
theorem C9_profile_ids (es : List PEv) :
    (pRun es).counter = createCount es ∧
    (pRun es).created = (List.range (createCount es)).map (fun k => profileIdOf (k + 1)) ∧
    (pRun es).created.Nodup ∧
    (∀ (id : String) (s : ProfileState),
      (deleteProfile id s).counter = s.counter ∧
      (deleteProfile id s).created = s.created) := by
  have h := pRun_counter_created es pInit (by simp [pInit])
  refine ⟨by simpa [pRun, pInit] using h.1, by simpa [pRun, pInit] using h.2, ?_, ?_⟩
  · have h2 : (pRun es).created =
        (List.range (createCount es)).map (fun k => profileIdOf (k + 1)) := by
      simpa [pRun, pInit] using h.2
    rw [h2]
    exact List.Nodup.map
      (profileIdOf_injective.comp (fun a b hab => by omega)) (List.nodup_range _)
  · intro id s
    exact ⟨rfl, rfl⟩

/-- C7: the polyline length computed by the measure-distance tool equals the
sum of the Euclidean distances between consecutive vertices of the position
list; in particular, for the points [(0,0,0), (3,0,0), (3,4,0)] it equals 7. -/
theorem C7_polyline_length :
    (∀ l : List Point, computeLength l = specPolylineLength l) ∧
    computeLength [((0 : ℝ), (0 : ℝ), (0 : ℝ)), (3, 0, 0), (3, 4, 0)] = 7 :=
  ⟨computeLength_eq_spec, computeLength_example⟩

/-- C8: for every pair of points given to the two-point height tool, the
computed vertical measurement is the absolute difference of the two points'
heights, the horizontal measurement is the distance from p1 to the projection
of p2 onto p1's height level, and the diagonal measurement is the direct 3D
Euclidean distance between p1 and p2. -/
theorem C8_height_metrics (fc : Point → Cartographic) (fr : ℝ → ℝ → ℝ → Point)
    (p1 p2 : Point) :
    (computeMetrics fc fr p1 p2).heightDiff = specVertical fc p1 p2 ∧
    (computeMetrics fc fr p1 p2).proj = specProjection fc fr p1 p2 ∧
    (computeMetrics fc fr p1 p2).horizontal = specHorizontal fc fr p1 p2 ∧
    (computeMetrics fc fr p1 p2).diagonal = specDiagonal p1 p2 :=
  ⟨rfl, rfl, rfl, rfl⟩

/-- C5: a pointer event (click or move) whose screen position fails to resolve
to a world position leaves the measure-distance tool state — vertex buffer and
entity collection included — completely unchanged. -/
theorem C5_pick_miss_noop (s : DistState) :
    leftClick none s = s ∧ mouseMove none s = s := by
  constructor
  · rfl
  · cases h : s.floatPt <;> simp [mouseMove, h]

/-- C4: pressing Escape while the measure-distance tool is drawing with an
empty vertex buffer leaves the entire tool state unchanged. -/
theorem C4_escape_empty_buffer (s : DistState)
    (hdraw : s.isDrawing = true) (hpts : s.pts = []) :
    escHandler s = s := by
  simp [escHandler, hdraw, hpts]

theorem C4_escape_empty_buffer_witness :
    (startDrawing initState).isDrawing = true ∧
    (startDrawing initState).pts = [] ∧
    escHandler (startDrawing initState) = startDrawing initState :=
  ⟨rfl, rfl, C4_escape_empty_buffer _ rfl rfl⟩

/-- C3 (amended): a double-click finalizes the shape iff the vertex buffer
holds at least 2 entries; since the buffer holds the committed vertices plus
the trailing floating point, this means a double-click finalizes as soon as
one committed vertex exists, and is ignored only while the buffer is empty or
a single entry long. -/
theorem C3_double_click_guard (s : DistState) :
    (s.pts.length < 2 → dblClick s = s) ∧
    (2 ≤ s.pts.length →
      (dblClick s).measuredLines.map Prod.snd =
        s.measuredLines.map Prod.snd ++ [s.pts] ∧
      (dblClick s).pts = []) := by
  constructor
  · intro h
    simp [dblClick, h]
  · intro h
    have hlt : ¬ s.pts.length < 2 := by omega
    simp [dblClick, hlt, finalizeLine]

theorem C3_double_click_guard_witness :
    2 ≤ (run [Ev.toggle, Ev.click (some ((0 : ℝ), 0, 0))]).pts.length ∧
    (dblClick (run [Ev.toggle, Ev.click (some ((0 : ℝ), 0, 0))])).pts = [] :=
  ⟨by decide, ((C3_double_click_guard _).2 (by decide)).2⟩

/-- C3 counterexample: after a single committed click the buffer holds 2
entries (the committed vertex and the floating point), so a double-click is
NOT ignored: it finalizes a measurement even though fewer than 2 committed
vertices exist. -/
theorem C3_counterexample :
    (run [Ev.toggle, Ev.click (some ((0 : ℝ), 0, 0))]).pts =
      [((0 : ℝ), 0, 0), ((0 : ℝ), 0, 0)] ∧
    (run [Ev.toggle, Ev.click (some ((0 : ℝ), 0, 0))]).measuredLines.length = 0 ∧
    (run [Ev.toggle, Ev.click (some ((0 : ℝ), 0, 0)), Ev.dblclick]).measuredLines.length
      = 1 :=
  ⟨rfl, rfl, rfl⟩

/-- C1 counterexample: two primary clicks followed by a double-click finalize
a polyline with THREE positions — the two clicked vertices plus the trailing
floating point, which `finalizeLine`'s `pts.slice()` does include. -/
theorem C1_counterexample :
    (run [Ev.toggle, Ev.click (some ((0 : ℝ), 0, 0)),
          Ev.click (some ((1 : ℝ), 0, 0)), Ev.dblclick]).measuredLines.map Prod.snd =
      [[((0 : ℝ), 0, 0), ((1 : ℝ), 0, 0), ((1 : ℝ), 0, 0)]] ∧
    ([[((0 : ℝ), 0, 0), ((1 : ℝ), 0, 0), ((1 : ℝ), 0, 0)]].map List.length ≠ [2]) :=
  ⟨rfl, by decide⟩

/-- C2 counterexample: stopping while drawing does not remove the preview
polyline entity: after one click the preview polyline has id 1, and after
`stopDrawing` it is the one entity still in the collection. -/
theorem C2_counterexample :
    (run [Ev.toggle, Ev.click (some ((0 : ℝ), 0, 0))]).lineEnt = some 1 ∧
    (run [Ev.toggle, Ev.click (some ((0 : ℝ), 0, 0)), Ev.stop]).entities = [1] :=
  ⟨rfl, rfl⟩

theorem set_append_last {α : Type} (l : List α) (a b : α) :
    (l ++ [a]).set l.length b = l ++ [b] := by
  induction l with
  | nil => rfl
  | cons x xs ih => simp [List.set, ih]

theorem set_last_eq_dropLast {α : Type} :
    ∀ (l : List α), l ≠ [] → ∀ a : α, l.set (l.length - 1) a = l.dropLast ++ [a] := by
  intro l
  induction l with
  | nil => intro h; exact absurd rfl h
  | cons x xs ih =>
    intro _ a
    cases xs with
    | nil => rfl
    | cons y ys =>
      have e1 : (x :: y :: ys).length - 1 = (y :: ys).length := by simp
      rw [e1]
      have e2 : (x :: y :: ys).set (y :: ys).length a =
          x :: ((y :: ys).set ((y :: ys).length - 1) a) := by
        simp [List.set]
      rw [e2, ih (by simp) a]
      simp

theorem mem_of_mem_foldl_erase {ms es : List Nat} {a : Nat}
    (h : a ∈ ms.foldl (fun es m => es.erase m) es) : a ∈ es := by
  induction ms generalizing es with
  | nil => simpa using h
  | cons m ms ih =>
    simp only [List.foldl_cons] at h
    exact List.mem_of_mem_erase (ih h)

theorem nodup_foldl_erase {ms es : List Nat} (h : es.Nodup) :
    (ms.foldl (fun es m => es.erase m) es).Nodup := by
  induction ms generalizing es with
  | nil => simpa using h
  | cons m ms ih => exact ih (h.erase m)

theorem mem_foldl_erase_iff {ms es : List Nat} {a : Nat} (hnd : es.Nodup) :
    a ∈ ms.foldl (fun es m => es.erase m) es ↔ a ∈ es ∧ a ∉ ms := by
  induction ms generalizing es with
  | nil => simp
  | cons m ms ih =>
    simp only [List.foldl_cons]
    rw [ih (hnd.erase m), List.Nodup.mem_erase_iff hnd, List.mem_cons]
    constructor
    · rintro ⟨⟨hne, hmem⟩, hnin⟩
      exact ⟨hmem, by tauto⟩
    · rintro ⟨hmem, hnin⟩
      exact ⟨⟨by tauto, hmem⟩, by tauto⟩

theorem inv_init : Inv initState := by
  constructor <;> simp [initState, finalIds]

theorem removeId_nodup (o : Option Nat) {es : List Nat} (h : es.Nodup) :
    (removeId o es).Nodup := by
  cases o with
  | none => exact h
  | some i => exact h.erase i

theorem mem_of_mem_removeId {o : Option Nat} {es : List Nat} {a : Nat}
    (h : a ∈ removeId o es) : a ∈ es := by
  cases o with
  | none => exact h
  | some i => exact List.mem_of_mem_erase h

theorem mem_removeId_of_ne {o : Option Nat} {es : List Nat} {a : Nat}
    (ha : a ∈ es) (hne : o ≠ some a) : a ∈ removeId o es := by
  cases o with
  | none => exact ha
  | some i =>
    have hne2 : a ≠ i := fun h => hne (by rw [h])
    exact (List.mem_erase_of_ne hne2).mpr ha

theorem not_mem_removeId_self {es : List Nat} {a : Nat} (h : es.Nodup) :
    a ∉ removeId (some a) es := by
  intro hmem
  exact ((List.Nodup.mem_erase_iff h).mp hmem).1 rfl

theorem finalIds_mem_left {s : DistState} {i : Nat}
    (h : i ∈ s.measuredLines.map Prod.fst ++ s.measuredLabels) : i ∈ finalIds s := by
  unfold finalIds
  rw [List.append_assoc]
  cases List.mem_append.mp h with
  | inl h1 => exact List.mem_append_left _ h1
  | inr h2 => exact List.mem_append_right _ (List.mem_append_left _ h2)

theorem inv_stop {s : DistState} (hv : Inv s) : Inv (stopDrawing s) := by
  have hnd1 : (removeId s.dynamicLabel s.entities).Nodup :=
    removeId_nodup _ hv.ent_nodup
  refine ⟨?_, ?_, ?_, ?_, ?_, ?_, ?_, ?_, ?_, ?_, ?_, ?_, ?_, ?_, ?_, ?_, ?_, ?_, ?_, ?_⟩
  · intro _; simp [stopDrawing]
  · intro _; simp [stopDrawing]
  · intro _; simp [stopDrawing]
  · intro h; simp [stopDrawing] at h
  · exact nodup_foldl_erase hnd1
  · intro i hi
    exact hv.ent_lt i (mem_of_mem_removeId (mem_of_mem_foldl_erase hi))
  · intro i hi; simp [stopDrawing] at hi
  · intro i hi; exact hv.float_lt i hi
  · intro i hi; exact hv.line_lt i hi
  · intro i hi; simp [stopDrawing] at hi
  · intro i hi
    exact hv.fin_lt i (by simpa [finalIds, stopDrawing] using hi)
  · intro i hi
    have hi' : i ∈ s.measuredLines.map Prod.fst ++ s.measuredLabels := by
      simpa [stopDrawing] using hi
    have hfin : i ∈ finalIds s := finalIds_mem_left hi'
    show i ∈ s.markerEntities.foldl (fun es m => es.erase m) (removeId s.dynamicLabel s.entities)
    rw [mem_foldl_erase_iff hnd1]
    exact ⟨mem_removeId_of_ne (hv.finLL_mem i hi') (hv.fin_label i hfin),
      hv.fin_marker i hfin⟩
  · intro i _ hmem; simp [stopDrawing] at hmem
  · intro i _; simp [stopDrawing]
  · intro i hi
    exact hv.fin_float i (by simpa [finalIds, stopDrawing] using hi)
  · intro i hi
    exact hv.fin_line i (by simpa [finalIds, stopDrawing] using hi)
  · intro i hi
    show i ∈ s.markerEntities.foldl (fun es m => es.erase m) (removeId s.dynamicLabel s.entities)
    rw [mem_foldl_erase_iff hnd1]
    exact ⟨mem_removeId_of_ne (hv.line_mem i hi) (hv.line_label i hi),
      hv.line_marker i hi⟩
  · intro i hi hmem; simp [stopDrawing] at hmem
  · intro i _; simp [stopDrawing]
  · intro i hi
    rcases hv.float_cases i hi with hmk | hout
    · right
      intro hmem
      have hmem' : i ∈ s.markerEntities.foldl (fun es m => es.erase m)
          (removeId s.dynamicLabel s.entities) := hmem
      rw [mem_foldl_erase_iff hnd1] at hmem'
      exact hmem'.2 hmk
    · right
      intro hmem
      have hmem' : i ∈ s.markerEntities.foldl (fun es m => es.erase m)
          (removeId s.dynamicLabel s.entities) := hmem
      exact hout (mem_of_mem_removeId (mem_of_mem_foldl_erase hmem'))

theorem nodup_snoc {es : List Nat} {a : Nat} (h : es.Nodup) (ha : a ∉ es) :
    (es ++ [a]).Nodup := by
  refine List.Nodup.append h (List.nodup_singleton a) ?_
  intro x hx
  simp only [List.mem_singleton]
  rintro rfl
  exact ha hx

theorem eq_getLast_of_mem_not_dropLast {l : List Nat} {a : Nat}
    (ha : a ∈ l) (hnd : a ∉ l.dropLast) : l.getLast? = some a := by
  have hne : l ≠ [] := List.ne_nil_of_mem ha
  rw [List.getLast?_eq_getLast l hne]
  have hdec : l.dropLast ++ [l.getLast hne] = l := List.dropLast_append_getLast hne
  rw [← hdec] at ha
  cases List.mem_append.mp ha with
  | inl h1 => exact absurd h1 hnd
  | inr h2 => simpa using (List.mem_singleton.mp h2).symm ▸ rfl

theorem inv_start {s : DistState} (hv : Inv s) : Inv (startDrawing s) := by
  refine ⟨?_, ?_, ?_, ?_, ?_, ?_, ?_, ?_, ?_, ?_, ?_, ?_, ?_, ?_, ?_, ?_, ?_, ?_, ?_, ?_⟩
  · intro h; simp [startDrawing] at h
  · intro h; simp [startDrawing] at h
  · intro h; simp [startDrawing] at h
  · intro _ h; simp [startDrawing] at h
  · exact hv.ent_nodup
  · exact hv.ent_lt
  · intro i hi; simp [startDrawing] at hi
  · intro i hi; simp [startDrawing] at hi
  · intro i hi; simp [startDrawing] at hi
  · exact hv.label_lt
  · exact hv.fin_lt
  · exact hv.finLL_mem
  · intro i _; simp [startDrawing]
  · exact hv.fin_label
  · intro i _ h; simp [startDrawing] at h
  · intro i _ h; simp [startDrawing] at h
  · intro i h; simp [startDrawing] at h
  · intro i h; simp [startDrawing] at h
  · intro i h; simp [startDrawing] at h
  · intro i h; simp [startDrawing] at h

theorem inv_move {s : DistState} (hv : Inv s) (p? : Option Point) :
    Inv (mouseMove p? s) := by
  cases hf : s.floatPt with
  | none =>
    have : mouseMove p? s = s := by simp [mouseMove, hf]
    rw [this]; exact hv
  | some f =>
    cases p? with
    | none =>
      have : mouseMove none s = s := by simp [mouseMove, hf]
      rw [this]; exact hv
    | some p =>
      have hme : mouseMove (some p) s = { s with pts := s.pts.set (s.pts.length - 1) p } := by
        simp [mouseMove, hf]
      rw [hme]
      refine ⟨?_, hv.idle_label, hv.idle_markers, ?_, hv.ent_nodup, hv.ent_lt, hv.marker_lt,
        hv.float_lt, hv.line_lt, hv.label_lt, hv.fin_lt, hv.finLL_mem, hv.fin_marker,
        hv.fin_label, hv.fin_float, hv.fin_line, hv.line_mem, hv.line_marker,
        hv.line_label, hv.float_cases⟩
      · intro h
        have := hv.idle_pts h
        simp [this]
      · intro _ _
        exact ⟨f, hf⟩

theorem mem_of_getLast?_eq {l : List Nat} {a : Nat} (h : l.getLast? = some a) :
    a ∈ l := by
  cases l with
  | nil => simp at h
  | cons x xs =>
    rw [List.getLast?_eq_getLast (x :: xs) (by simp)] at h
    have ha : (x :: xs).getLast (by simp) = a := Option.some.inj h
    rw [← ha]
    exact List.getLast_mem _

theorem inv_esc {s : DistState} (hv : Inv s) : Inv (escHandler s) := by
  by_cases hd : s.isDrawing = false
  · have he : escHandler s = s := by simp [escHandler, hd]
    rw [he]; exact hv
  · by_cases hp : s.pts.length = 0
    · have he : escHandler s = s := by simp [escHandler, hd, hp]
      rw [he]; exact hv
    · have hdt : s.isDrawing = true := by
        revert hd; cases s.isDrawing <;> simp
      have he : escHandler s = { s with
          pts := s.pts.dropLast,
          markerEntities := s.markerEntities.dropLast,
          entities := removeId s.markerEntities.getLast? s.entities,
          lineShow := if s.pts.dropLast.length < 2 ∧ s.lineEnt.isSome then false
            else s.lineShow } := by
        simp [escHandler, hd, hp]
      rw [he]
      have hlast_mem : ∀ a : Nat, s.markerEntities.getLast? = some a → a ∈ s.markerEntities :=
        fun a ha => mem_of_getLast?_eq ha
      refine ⟨?_, ?_, ?_, ?_, ?_, ?_, ?_, hv.float_lt, hv.line_lt, hv.label_lt, hv.fin_lt,
        ?_, ?_, hv.fin_label, hv.fin_float, hv.fin_line, ?_, ?_, hv.line_label, ?_⟩
      · intro h; exact absurd h hd
      · intro h; exact absurd h hd
      · intro h; exact absurd h hd
      · intro _ _
        exact hv.float_of_pts hdt (by simpa [List.length_eq_zero] using hp)
      · exact removeId_nodup _ hv.ent_nodup
      · intro i hi
        exact hv.ent_lt i (mem_of_mem_removeId hi)
      · intro i hi
        exact hv.marker_lt i (List.dropLast_subset _ hi)
      · intro i hi
        refine mem_removeId_of_ne (hv.finLL_mem i hi) ?_
        intro hlq
        exact hv.fin_marker i (finalIds_mem_left hi) (hlast_mem i hlq)
      · intro i hi hmem
        exact hv.fin_marker i hi (List.dropLast_subset _ hmem)
      · intro i hi
        refine mem_removeId_of_ne (hv.line_mem i hi) ?_
        intro hlq
        exact hv.line_marker i hi (hlast_mem i hlq)
      · intro i hi hmem
        exact hv.line_marker i hi (List.dropLast_subset _ hmem)
      · intro i hi
        rcases hv.float_cases i hi with hmk | hout
        · by_cases hdl : i ∈ s.markerEntities.dropLast
          · exact Or.inl hdl
          · right
            have hlq : s.markerEntities.getLast? = some i :=
              eq_getLast_of_mem_not_dropLast hmk hdl
            rw [hlq]
            exact not_mem_removeId_self hv.ent_nodup
        · right
          intro hmem
          exact hout (mem_of_mem_removeId hmem)

theorem leftClick_first_eq (s : DistState) (p : Point) (h : s.pts.length = 0) :
    leftClick (some p) s = { s with
      pts := s.pts ++ [p, p],
      floatPt := some s.nextId,
      lineEnt := some (s.nextId + 1),
      dynamicLabel := some (s.nextId + 2),
      lineShow := true,
      markerEntities := s.markerEntities ++ [s.nextId],
      entities := ((s.entities ++ [s.nextId]) ++ [s.nextId + 1]) ++ [s.nextId + 2],
      nextId := s.nextId + 3 } := by
  simp [leftClick, h, createMarker, addEntity]

theorem leftClick_next_eq (s : DistState) (p : Point) (h : ¬ s.pts.length = 0) :
    leftClick (some p) s = { s with
      pts := s.pts.set (s.pts.length - 1) p ++ [p],
      floatPt := some s.nextId,
      markerEntities := s.markerEntities ++ [s.nextId],
      entities := s.entities ++ [s.nextId],
      nextId := s.nextId + 1 } := by
  simp [leftClick, h, createMarker, addEntity]
theorem inv_click {s : DistState} (hv : Inv s) (p? : Option Point)
    (hd : s.isDrawing = true) : Inv (leftClick p? s) := by
  cases p? with
  | none => exact hv
  | some p =>
    by_cases h0 : s.pts.length = 0
    · rw [leftClick_first_eq s p h0]
      refine ⟨?_, ?_, ?_, ?_, ?_, ?_, ?_, ?_, ?_, ?_, ?_, ?_, ?_, ?_, ?_, ?_, ?_, ?_, ?_, ?_⟩
      · intro h
        have hff : s.isDrawing = false := h
        rw [hd] at hff
        cases hff
      · intro h
        have hff : s.isDrawing = false := h
        rw [hd] at hff
        cases hff
      · intro h
        have hff : s.isDrawing = false := h
        rw [hd] at hff
        cases hff
      · intro _ _
        exact ⟨s.nextId, rfl⟩
      · show (((s.entities ++ [s.nextId]) ++ [s.nextId + 1]) ++ [s.nextId + 2]).Nodup
        have h1 : (s.entities ++ [s.nextId]).Nodup :=
          nodup_snoc hv.ent_nodup (fun hm => absurd (hv.ent_lt _ hm) (Nat.lt_irrefl _))
        have h2 : ((s.entities ++ [s.nextId]) ++ [s.nextId + 1]).Nodup := by
          refine nodup_snoc h1 (fun hm => ?_)
          rcases List.mem_append.mp hm with hma | hmb
          · have := hv.ent_lt _ hma; omega
          · simp at hmb
        refine nodup_snoc h2 (fun hm => ?_)
        rcases List.mem_append.mp hm with hma | hmb
        · rcases List.mem_append.mp hma with hmc | hmd
          · have := hv.ent_lt _ hmc; omega
          · simp at hmd
        · simp at hmb
      · intro i hi
        show i < s.nextId + 3
        rcases List.mem_append.mp hi with hma | hmb
        · rcases List.mem_append.mp hma with hmc | hmd
          · rcases List.mem_append.mp hmc with hme | hmf
            · have := hv.ent_lt i hme; omega
            · simp at hmf; omega
          · simp at hmd; omega
        · simp at hmb; omega
      · intro i hi
        show i < s.nextId + 3
        rcases List.mem_append.mp hi with hma | hmb
        · have := hv.marker_lt i hma; omega
        · simp at hmb; omega
      · intro i hi
        show i < s.nextId + 3
        have he : s.nextId = i := Option.some.inj hi
        omega
      · intro i hi
        show i < s.nextId + 3
        have he : s.nextId + 1 = i := Option.some.inj hi
        omega
      · intro i hi
        show i < s.nextId + 3
        have he : s.nextId + 2 = i := Option.some.inj hi
        omega
      · intro i hi
        show i < s.nextId + 3
        have := hv.fin_lt i hi
        omega
      · intro i hi
        exact List.mem_append_left _ (List.mem_append_left _
          (List.mem_append_left _ (hv.finLL_mem i hi)))
      · intro i hi hmem
        rcases List.mem_append.mp hmem with hma | hmb
        · exact hv.fin_marker i hi hma
        · simp at hmb
          have := hv.fin_lt i hi
          omega
      · intro i hi heq
        have he : s.nextId + 2 = i := Option.some.inj heq
        have := hv.fin_lt i hi
        omega
      · intro i hi heq
        have he : s.nextId = i := Option.some.inj heq
        have := hv.fin_lt i hi
        omega
      · intro i hi heq
        have he : s.nextId + 1 = i := Option.some.inj heq
        have := hv.fin_lt i hi
        omega
      · intro i hi
        have he : s.nextId + 1 = i := Option.some.inj hi
        show i ∈ ((s.entities ++ [s.nextId]) ++ [s.nextId + 1]) ++ [s.nextId + 2]
        rw [← he]
        exact List.mem_append_left _ (List.mem_append_right _ (by simp))
      · intro i hi hmem
        have he : s.nextId + 1 = i := Option.some.inj hi
        rcases List.mem_append.mp hmem with hma | hmb
        · have := hv.marker_lt i hma; omega
        · simp at hmb; omega
      · intro i hi heq
        have h1 : s.nextId + 1 = i := Option.some.inj hi
        have h2 : s.nextId + 2 = i := Option.some.inj heq
        omega
      · intro i hi
        have he : s.nextId = i := Option.some.inj hi
        left
        show i ∈ s.markerEntities ++ [s.nextId]
        rw [← he]
        exact List.mem_append_right _ (by simp)
    · rw [leftClick_next_eq s p h0]
      refine ⟨?_, ?_, ?_, ?_, ?_, ?_, ?_, ?_, ?_, ?_, ?_, ?_, ?_, ?_, ?_, ?_, ?_, ?_, ?_, ?_⟩
      · intro h
        have hff : s.isDrawing = false := h
        rw [hd] at hff
        cases hff
      · intro h
        have hff : s.isDrawing = false := h
        rw [hd] at hff
        cases hff
      · intro h
        have hff : s.isDrawing = false := h
        rw [hd] at hff
        cases hff
      · intro _ _
        exact ⟨s.nextId, rfl⟩
      · show (s.entities ++ [s.nextId]).Nodup
        exact nodup_snoc hv.ent_nodup (fun hm => absurd (hv.ent_lt _ hm) (Nat.lt_irrefl _))
      · intro i hi
        show i < s.nextId + 1
        rcases List.mem_append.mp hi with hma | hmb
        · have := hv.ent_lt i hma; omega
        · simp at hmb; omega
      · intro i hi
        show i < s.nextId + 1
        rcases List.mem_append.mp hi with hma | hmb
        · have := hv.marker_lt i hma; omega
        · simp at hmb; omega
      · intro i hi
        show i < s.nextId + 1
        have he : s.nextId = i := Option.some.inj hi
        omega
      · intro i hi
        show i < s.nextId + 1
        have := hv.line_lt i hi
        omega
      · intro i hi
        show i < s.nextId + 1
        have := hv.label_lt i hi
        omega
      · intro i hi
        show i < s.nextId + 1
        have := hv.fin_lt i hi
        omega
      · intro i hi
        exact List.mem_append_left _ (hv.finLL_mem i hi)
      · intro i hi hmem
        rcases List.mem_append.mp hmem with hma | hmb
        · exact hv.fin_marker i hi hma
        · simp at hmb
          have := hv.fin_lt i hi
          omega
      · intro i hi
        exact hv.fin_label i hi
      · intro i hi heq
        have he : s.nextId = i := Option.some.inj heq
        have := hv.fin_lt i hi
        omega
      · intro i hi
        exact hv.fin_line i hi
      · intro i hi
        exact List.mem_append_left _ (hv.line_mem i hi)
      · intro i hi hmem
        rcases List.mem_append.mp hmem with hma | hmb
        · exact hv.line_marker i hi hma
        · simp at hmb
          have := hv.line_lt i hi
          omega
      · intro i hi
        exact hv.line_label i hi
      · intro i hi
        have he : s.nextId = i := Option.some.inj hi
        left
        show i ∈ s.markerEntities ++ [s.nextId]
        rw [← he]
        exact List.mem_append_right _ (by simp)


theorem finalizeLine_eq (s : DistState) :
    finalizeLine s = { s with
      floatPt := none, lineEnt := none, dynamicLabel := none,
      entities := removeId s.dynamicLabel (removeId s.lineEnt (removeId s.floatPt s.entities))
        ++ [s.nextId, s.nextId + 1],
      nextId := s.nextId + 2,
      measuredLines := s.measuredLines ++ [(s.nextId, s.pts)],
      measuredMarkers := s.measuredMarkers ++ [s.markerEntities],
      measuredLabels := s.measuredLabels ++ [s.nextId + 1],
      pts := [], markerEntities := [] } := rfl

theorem inv_dbl {s : DistState} (hv : Inv s) : Inv (dblClick s) := by
  by_cases h2 : s.pts.length < 2
  · have he : dblClick s = s := by simp [dblClick, h2]
    rw [he]; exact hv
  · have he : dblClick s = finalizeLine s := by simp [dblClick, h2]
    rw [he, finalizeLine_eq]
    have hnd3 : (removeId s.dynamicLabel
        (removeId s.lineEnt (removeId s.floatPt s.entities))).Nodup :=
      removeId_nodup _ (removeId_nodup _ (removeId_nodup _ hv.ent_nodup))
    have hsub3 : ∀ a : Nat, a ∈ removeId s.dynamicLabel
        (removeId s.lineEnt (removeId s.floatPt s.entities)) → a ∈ s.entities :=
      fun a ha => mem_of_mem_removeId (mem_of_mem_removeId (mem_of_mem_removeId ha))
    refine ⟨?_, ?_, ?_, ?_, ?_, ?_, ?_, ?_, ?_, ?_, ?_, ?_, ?_, ?_, ?_, ?_, ?_, ?_, ?_, ?_⟩
    · intro _; rfl
    · intro _; rfl
    · intro _; rfl
    · intro _ hne
      exact absurd rfl hne
    · show (removeId s.dynamicLabel (removeId s.lineEnt (removeId s.floatPt s.entities))
        ++ [s.nextId, s.nextId + 1]).Nodup
      refine List.Nodup.append hnd3 ?_ ?_
      · refine List.nodup_cons.mpr ⟨?_, List.nodup_singleton _⟩
        simp
      · intro a ha
        have hlt := hv.ent_lt a (hsub3 a ha)
        intro hmem
        rcases List.mem_cons.mp hmem with h1 | h1
        · omega
        · rcases List.mem_cons.mp h1 with hh | hh
          · omega
          · exact absurd hh (List.not_mem_nil a)
    · intro i hi
      show i < s.nextId + 2
      rcases List.mem_append.mp hi with hma | hmb
      · have := hv.ent_lt i (hsub3 i hma); omega
      · simp at hmb; omega
    · intro i hi
      exact absurd hi (List.not_mem_nil i)
    · intro i hi
      exact Option.noConfusion hi
    · intro i hi
      exact Option.noConfusion hi
    · intro i hi
      exact Option.noConfusion hi
    · intro i hi
      show i < s.nextId + 2
      simp only [finalIds, List.map_append, List.flatten_append, List.mem_append,
        List.mem_singleton, List.map_cons, List.map_nil, List.flatten_cons,
        List.flatten_nil, List.append_nil, List.mem_cons, List.not_mem_nil,
        or_false] at hi
      rcases hi with ((ha1 | hb) | (hc | hd2)) | (he2 | hf)
      · have : i ∈ finalIds s := finalIds_mem_left
          (List.mem_append_left _ ha1)
        have := hv.fin_lt i this; omega
      · omega
      · have : i ∈ finalIds s := finalIds_mem_left
          (List.mem_append_right _ hc)
        have := hv.fin_lt i this; omega
      · omega
      · have : i ∈ finalIds s := by
          unfold finalIds
          exact List.mem_append_right _ he2
        have := hv.fin_lt i this; omega
      · have := hv.marker_lt i hf; omega
    · intro i hi
      simp only [List.map_append, List.mem_append, List.map_cons, List.map_nil,
        List.mem_singleton, List.mem_cons, List.not_mem_nil, or_false] at hi
      show i ∈ removeId s.dynamicLabel (removeId s.lineEnt (removeId s.floatPt s.entities))
        ++ [s.nextId, s.nextId + 1]
      rcases hi with (ha1 | hb) | (hc | hd2)
      · have hfin : i ∈ finalIds s := finalIds_mem_left (List.mem_append_left _ ha1)
        refine List.mem_append_left _ ?_
        refine mem_removeId_of_ne (mem_removeId_of_ne (mem_removeId_of_ne
          (hv.finLL_mem i (List.mem_append_left _ ha1))
          (hv.fin_float i hfin)) (hv.fin_line i hfin)) (hv.fin_label i hfin)
      · refine List.mem_append_right _ ?_
        simp [hb]
      · have hfin : i ∈ finalIds s := finalIds_mem_left (List.mem_append_right _ hc)
        refine List.mem_append_left _ ?_
        refine mem_removeId_of_ne (mem_removeId_of_ne (mem_removeId_of_ne
          (hv.finLL_mem i (List.mem_append_right _ hc))
          (hv.fin_float i hfin)) (hv.fin_line i hfin)) (hv.fin_label i hfin)
      · refine List.mem_append_right _ ?_
        simp [hd2]
    · intro i _ hmem
      exact absurd hmem (List.not_mem_nil i)
    · intro i _ heq
      exact Option.noConfusion heq
    · intro i _ heq
      exact Option.noConfusion heq
    · intro i _ heq
      exact Option.noConfusion heq
    · intro i heq
      exact Option.noConfusion heq
    · intro i heq
      exact Option.noConfusion heq
    · intro i heq
      exact Option.noConfusion heq
    · intro i heq
      exact Option.noConfusion heq

theorem foldl_erase_pairs (ms : List (Nat × List Point)) (es : List Nat) :
    ms.foldl (fun es pr => es.erase pr.1) es =
      (ms.map Prod.fst).foldl (fun es m => es.erase m) es := by
  induction ms generalizing es with
  | nil => rfl
  | cons pr ms ih => simp [ih]

theorem foldl_erase_nested (ms : List (List Nat)) (es : List Nat) :
    ms.foldl (fun es ml => ml.foldl (fun es m => es.erase m) es) es =
      ms.flatten.foldl (fun es m => es.erase m) es := by
  induction ms generalizing es with
  | nil => rfl
  | cons ml ms ih => simp [List.foldl_append, ih]

theorem inv_clear {s : DistState} (hv : Inv s) : Inv (clearAll s) := by
  show Inv (stopDrawing { s with
    entities := s.measuredMarkers.foldl
      (fun es ml => ml.foldl (fun es m => es.erase m) es)
      (s.measuredLabels.foldl (fun es m => es.erase m)
        (s.measuredLines.foldl (fun es pr => es.erase pr.1) s.entities)),
    measuredLines := [], measuredLabels := [] })
  apply inv_stop
  rw [foldl_erase_pairs, foldl_erase_nested]
  have hnd1 : ((s.measuredLines.map Prod.fst).foldl (fun es m => es.erase m)
      s.entities).Nodup := nodup_foldl_erase hv.ent_nodup
  have hnd2 : (s.measuredLabels.foldl (fun es m => es.erase m)
      ((s.measuredLines.map Prod.fst).foldl (fun es m => es.erase m)
        s.entities)).Nodup := nodup_foldl_erase hnd1
  have hnd3 : (s.measuredMarkers.flatten.foldl (fun es m => es.erase m)
      (s.measuredLabels.foldl (fun es m => es.erase m)
        ((s.measuredLines.map Prod.fst).foldl (fun es m => es.erase m)
          s.entities))).Nodup := nodup_foldl_erase hnd2
  refine ⟨?_, ?_, ?_, ?_, ?_, ?_, ?_, hv.float_lt, hv.line_lt, hv.label_lt, ?_, ?_, ?_,
    ?_, ?_, ?_, ?_, hv.line_marker, hv.line_label, ?_⟩
  · exact hv.idle_pts
  · exact hv.idle_label
  · exact hv.idle_markers
  · exact hv.float_of_pts
  · exact hnd3
  · intro i hi
    exact hv.ent_lt i (mem_of_mem_foldl_erase (mem_of_mem_foldl_erase
      (mem_of_mem_foldl_erase hi)))
  · exact hv.marker_lt
  · intro i hi
    refine hv.fin_lt i ?_
    unfold finalIds
    have hi' : i ∈ s.measuredMarkers.flatten := by
      simpa [finalIds] using hi
    exact List.mem_append_right _ hi'
  · intro i hi
    simp at hi
  · intro i hi
    have hi' : i ∈ s.measuredMarkers.flatten := by
      simpa [finalIds] using hi
    refine hv.fin_marker i ?_
    unfold finalIds
    exact List.mem_append_right _ hi'
  · intro i hi
    have hi' : i ∈ s.measuredMarkers.flatten := by
      simpa [finalIds] using hi
    refine hv.fin_label i ?_
    unfold finalIds
    exact List.mem_append_right _ hi'
  · intro i hi
    have hi' : i ∈ s.measuredMarkers.flatten := by
      simpa [finalIds] using hi
    refine hv.fin_float i ?_
    unfold finalIds
    exact List.mem_append_right _ hi'
  · intro i hi
    have hi' : i ∈ s.measuredMarkers.flatten := by
      simpa [finalIds] using hi
    refine hv.fin_line i ?_
    unfold finalIds
    exact List.mem_append_right _ hi'
  · intro i hi
    have h1 : i ∉ s.measuredLines.map Prod.fst := by
      intro hm
      exact hv.fin_line i (finalIds_mem_left (List.mem_append_left _ hm)) hi
    have h2 : i ∉ s.measuredLabels := by
      intro hm
      exact hv.fin_line i (finalIds_mem_left (List.mem_append_right _ hm)) hi
    have h3 : i ∉ s.measuredMarkers.flatten := by
      intro hm
      refine hv.fin_line i ?_ hi
      unfold finalIds
      exact List.mem_append_right _ hm
    rw [mem_foldl_erase_iff hnd2]
    refine ⟨?_, h3⟩
    rw [mem_foldl_erase_iff hnd1]
    refine ⟨?_, h2⟩
    rw [mem_foldl_erase_iff hv.ent_nodup]
    exact ⟨hv.line_mem i hi, h1⟩
  · intro i hi
    rcases hv.float_cases i hi with hmk | hout
    · exact Or.inl hmk
    · right
      intro hmem
      exact hout (mem_of_mem_foldl_erase (mem_of_mem_foldl_erase
        (mem_of_mem_foldl_erase hmem)))

theorem inv_toggle {s : DistState} (hv : Inv s) : Inv (toggleDrawing s) := by
  by_cases hd : s.isDrawing
  · have he : toggleDrawing s = stopDrawing s := by simp [toggleDrawing, hd]
    rw [he]; exact inv_stop hv
  · have he : toggleDrawing s = startDrawing s := by simp [toggleDrawing, hd]
    rw [he]; exact inv_start hv

theorem inv_step {s : DistState} (hv : Inv s) (e : Ev) : Inv (step e s) := by
  cases e with
  | toggle => exact inv_toggle hv
  | stop => exact inv_stop hv
  | clear => exact inv_clear hv
  | click p =>
    by_cases hd : s.isDrawing = true
    · have he : step (Ev.click p) s = leftClick p s := by simp [step, hd]
      rw [he]; exact inv_click hv p hd
    · have he : step (Ev.click p) s = s := by simp [step, hd]
      rw [he]; exact hv
  | move p =>
    by_cases hd : s.isDrawing = true
    · have he : step (Ev.move p) s = mouseMove p s := by simp [step, hd]
      rw [he]; exact inv_move hv p
    · have he : step (Ev.move p) s = s := by simp [step, hd]
      rw [he]; exact hv
  | dblclick =>
    by_cases hd : s.isDrawing = true
    · have he : step Ev.dblclick s = dblClick s := by simp [step, hd]
      rw [he]; exact inv_dbl hv
    · have he : step Ev.dblclick s = s := by simp [step, hd]
      rw [he]; exact hv
  | esc => exact inv_esc hv

theorem reachable_inv {s : DistState} (h : Reachable s) : Inv s := by
  induction h with
  | init => exact inv_init
  | step e h ih => exact inv_step ih e

/-- C2 (amended): calling stop() while Drawing removes the floating point
marker, every in-progress vertex marker and the live label from the entity
collection and leaves every already-finalized line, label and marker
untouched, but it does NOT remove the preview polyline entity, which stays in
the collection (rendering nothing, since the vertex buffer is cleared);
calling stop() while Idle changes nothing. -/
theorem C2_stop_visuals (s : DistState) (hr : Reachable s) :
    (s.isDrawing = false → stopDrawing s = s) ∧
    (s.isDrawing = true →
      (stopDrawing s).measuredLines = s.measuredLines ∧
      (stopDrawing s).measuredLabels = s.measuredLabels ∧
      (stopDrawing s).measuredMarkers = s.measuredMarkers ∧
      (∀ i ∈ s.measuredLines.map Prod.fst ++ s.measuredLabels,
        i ∈ (stopDrawing s).entities) ∧
      (∀ i ∈ s.measuredMarkers.flatten, i ∈ s.entities → i ∈ (stopDrawing s).entities) ∧
      (∀ i, s.dynamicLabel = some i → i ∉ (stopDrawing s).entities) ∧
      (∀ i ∈ s.markerEntities, i ∉ (stopDrawing s).entities) ∧
      (∀ i, s.floatPt = some i → i ∉ (stopDrawing s).entities) ∧
      (∀ i, s.lineEnt = some i → i ∈ (stopDrawing s).entities)) := by
  have hv := reachable_inv hr
  have hnd1 : (removeId s.dynamicLabel s.entities).Nodup :=
    removeId_nodup _ hv.ent_nodup
  constructor
  · intro hid
    have h1 := hv.idle_pts hid
    have h2 := hv.idle_label hid
    have h3 := hv.idle_markers hid
    cases s with
    | mk isD pts fp le dl ls mks ml mlb mm ents nid =>
      simp only at h1 h2 h3 hid
      simp [stopDrawing, removeId, h1, h2, h3, hid]
  · intro hd
    refine ⟨rfl, rfl, rfl, ?_, ?_, ?_, ?_, ?_, ?_⟩
    · exact (inv_stop hv).finLL_mem
    · intro i hi hmem
      have hfin : i ∈ finalIds s := by
        unfold finalIds
        exact List.mem_append_right _ hi
      show i ∈ s.markerEntities.foldl (fun es m => es.erase m)
        (removeId s.dynamicLabel s.entities)
      rw [mem_foldl_erase_iff hnd1]
      exact ⟨mem_removeId_of_ne hmem (hv.fin_label i hfin), hv.fin_marker i hfin⟩
    · intro i hdl hmem
      have hmem' : i ∈ s.markerEntities.foldl (fun es m => es.erase m)
          (removeId s.dynamicLabel s.entities) := hmem
      have h1 := mem_of_mem_foldl_erase hmem'
      rw [hdl] at h1
      exact not_mem_removeId_self hv.ent_nodup h1
    · intro i hi hmem
      have hmem' : i ∈ s.markerEntities.foldl (fun es m => es.erase m)
          (removeId s.dynamicLabel s.entities) := hmem
      rw [mem_foldl_erase_iff hnd1] at hmem'
      exact hmem'.2 hi
    · intro i hif hmem
      have hmem' : i ∈ s.markerEntities.foldl (fun es m => es.erase m)
          (removeId s.dynamicLabel s.entities) := hmem
      rcases hv.float_cases i hif with hmk | hout
      · rw [mem_foldl_erase_iff hnd1] at hmem'
        exact hmem'.2 hmk
      · exact hout (mem_of_mem_removeId (mem_of_mem_foldl_erase hmem'))
    · exact (inv_stop hv).line_mem

theorem C2_stop_visuals_witness :
    (run [Ev.toggle, Ev.click (some ((0 : ℝ), 0, 0))]).isDrawing = true ∧
    (∀ i, (run [Ev.toggle, Ev.click (some ((0 : ℝ), 0, 0))]).lineEnt = some i →
      i ∈ (stopDrawing (run [Ev.toggle, Ev.click (some ((0 : ℝ), 0, 0))])).entities) :=
  ⟨rfl,
    ((C2_stop_visuals (run [Ev.toggle, Ev.click (some ((0 : ℝ), 0, 0))])
      (Reachable.step (Ev.click (some ((0 : ℝ), 0, 0)))
        (Reachable.step Ev.toggle Reachable.init))).2 rfl).2.2.2.2.2.2.2.2⟩

/-- C6: while drawing with a non-empty vertex buffer, every pointer-move
overwrites the last (floating) element of the buffer with the new
cursor-projected position without changing the buffer's length; a click
commits the floating point (overwriting it with the click position) and pushes
a fresh floating point. -/
theorem C6_move_overwrites (s : DistState) (p : Point)
    (hr : Reachable s) (hdraw : s.isDrawing = true) (hne : s.pts ≠ []) :
    (mouseMove (some p) s).pts = s.pts.dropLast ++ [p] ∧
    (mouseMove (some p) s).pts.length = s.pts.length ∧
    (leftClick (some p) s).pts = (s.pts.dropLast ++ [p]) ++ [p] := by
  obtain ⟨f, hf⟩ := (reachable_inv hr).float_of_pts hdraw hne
  have hm : mouseMove (some p) s = { s with pts := s.pts.set (s.pts.length - 1) p } := by
    simp [mouseMove, hf]
  have hset := set_last_eq_dropLast s.pts hne p
  have h0 : ¬ s.pts.length = 0 := by simpa [List.length_eq_zero] using hne
  refine ⟨?_, ?_, ?_⟩
  · rw [hm]
    show s.pts.set (s.pts.length - 1) p = s.pts.dropLast ++ [p]
    exact hset
  · rw [hm]
    show (s.pts.set (s.pts.length - 1) p).length = s.pts.length
    simp
  · rw [leftClick_next_eq s p h0]
    show s.pts.set (s.pts.length - 1) p ++ [p] = (s.pts.dropLast ++ [p]) ++ [p]
    rw [hset]

theorem C6_move_overwrites_witness :
    (mouseMove (some ((1 : ℝ), 0, 0))
        (run [Ev.toggle, Ev.click (some ((0 : ℝ), 0, 0))])).pts =
      (run [Ev.toggle, Ev.click (some ((0 : ℝ), 0, 0))]).pts.dropLast ++ [((1 : ℝ), 0, 0)] :=
  (C6_move_overwrites (run [Ev.toggle, Ev.click (some ((0 : ℝ), 0, 0))]) ((1 : ℝ), 0, 0)
    (Reachable.step (Ev.click (some ((0 : ℝ), 0, 0)))
      (Reachable.step Ev.toggle Reachable.init)) rfl
    (List.cons_ne_nil _ _)).1

theorem clicks_acc :
    ∀ (ps : List Point) (s : DistState) (cs : List Point) (f : Point),
      s.isDrawing = true → s.pts = cs ++ [f] →
      (clicks ps s).pts = (cs ++ ps) ++ [ps.getLastD f] ∧
      (clicks ps s).isDrawing = true ∧
      (clicks ps s).measuredLines = s.measuredLines := by
  intro ps
  induction ps with
  | nil =>
    intro s cs f hd hp
    exact ⟨by simp [clicks, hp], hd, rfl⟩
  | cons p ps ih =>
    intro s cs f hd hp
    have hstep : step (Ev.click (some p)) s = leftClick (some p) s := by
      simp [step, hd]
    have h0 : ¬ s.pts.length = 0 := by simp [hp]
    have hlc := leftClick_next_eq s p h0
    have hpts1 : (leftClick (some p) s).pts = (cs ++ [p]) ++ [p] := by
      rw [hlc]
      show s.pts.set (s.pts.length - 1) p ++ [p] = (cs ++ [p]) ++ [p]
      rw [hp]
      rw [show (cs ++ [f]).length - 1 = cs.length by simp]
      rw [set_append_last]
    have hd1 : (leftClick (some p) s).isDrawing = true := by
      rw [hlc]; exact hd
    have hml : (leftClick (some p) s).measuredLines = s.measuredLines := by
      rw [hlc]
    have hcl : clicks (p :: ps) s = clicks ps (leftClick (some p) s) := by
      simp [clicks, hstep]
    rw [hcl]
    obtain ⟨a1, a2, a3⟩ := ih (leftClick (some p) s) (cs ++ [p]) p hd1 hpts1
    refine ⟨?_, a2, a3.trans hml⟩
    rw [a1, List.getLastD_cons]
    simp

/-- C1 (amended): starting from a drawing state with an empty buffer, N ≥ 2
primary clicks at valid world positions followed by a double-click finalize a
polyline whose position list has N + 1 entries: the N clicked vertices
followed by the floating point, which IS included in the finalized shape (it
duplicates the last clicked position when no pointer-move intervened). -/
theorem C1_finalized_vertices (s : DistState) (p : Point) (rest : List Point)
    (hdraw : s.isDrawing = true) (hpts : s.pts = []) (hn : 1 ≤ rest.length) :
    (step Ev.dblclick (clicks (p :: rest) s)).measuredLines.map Prod.snd =
      s.measuredLines.map Prod.snd ++ [(p :: rest) ++ [rest.getLastD p]] ∧
    ((p :: rest) ++ [rest.getLastD p]).length = (p :: rest).length + 1 := by
  have hstep1 : clicks (p :: rest) s = clicks rest (leftClick (some p) s) := by
    simp [clicks, step, hdraw]
  have h0 : s.pts.length = 0 := by simp [hpts]
  have hfc := leftClick_first_eq s p h0
  have hpts1 : (leftClick (some p) s).pts = [p] ++ [p] := by
    rw [hfc]
    show s.pts ++ [p, p] = [p] ++ [p]
    rw [hpts]
    rfl
  have hd1 : (leftClick (some p) s).isDrawing = true := by
    rw [hfc]; exact hdraw
  have hml1 : (leftClick (some p) s).measuredLines = s.measuredLines := by
    rw [hfc]
  obtain ⟨a1, a2, a3⟩ := clicks_acc rest (leftClick (some p) s) [p] p hd1 hpts1
  have hlen : (clicks rest (leftClick (some p) s)).pts.length = rest.length + 2 := by
    rw [a1]; simp
  have hnot2 : ¬ (clicks rest (leftClick (some p) s)).pts.length < 2 := by omega
  have hstep2 : step Ev.dblclick (clicks rest (leftClick (some p) s)) =
      finalizeLine (clicks rest (leftClick (some p) s)) := by
    simp [step, a2, dblClick, hnot2]
  rw [hstep1, hstep2, finalizeLine_eq]
  constructor
  · show ((clicks rest (leftClick (some p) s)).measuredLines ++
      [((clicks rest (leftClick (some p) s)).nextId,
        (clicks rest (leftClick (some p) s)).pts)]).map Prod.snd =
      s.measuredLines.map Prod.snd ++ [(p :: rest) ++ [rest.getLastD p]]
    rw [List.map_append, a3.trans hml1, a1]
    simp
  · simp

theorem C1_finalized_vertices_witness :
    (step Ev.dblclick (clicks [((0 : ℝ), 0, 0), ((1 : ℝ), 0, 0)]
        (startDrawing initState))).measuredLines.map Prod.snd =
      [[((0 : ℝ), 0, 0), ((1 : ℝ), 0, 0), ((1 : ℝ), 0, 0)]] :=
  (C1_finalized_vertices (startDrawing initState) ((0 : ℝ), 0, 0) [((1 : ℝ), 0, 0)]
    rfl rfl (by simp)).1

theorem finalizeHeight_two {fc : Point → Cartographic} {fr : ℝ → ℝ → ℝ → Point}
    {t : HState} {a b : Point} (h : t.pts = [a, b]) :
    (finalizeHeight fc fr t).pts = [] ∧
    (finalizeHeight fc fr t).measuredLines.length = t.measuredLines.length + 3 ∧
    (finalizeHeight fc fr t).measuredLabels.length = t.measuredLabels.length + 3 := by
  refine ⟨?_, ?_, ?_⟩ <;> simp [finalizeHeight, h]

theorem heightLeftClick_some (fc : Point → Cartographic) (fr : ℝ → ℝ → ℝ → Point)
    (s : HState) (p : Point) :
    heightLeftClick fc fr (some p) s =
      (if (s.pts ++ [p]).length = 2
        then finalizeHeight fc fr { s with
          pts := s.pts ++ [p],
          tempMarkerEnts := s.tempMarkerEnts ++ [s.nextId],
          entities := s.entities ++ [s.nextId],
          nextId := s.nextId + 1 }
        else { s with
          pts := s.pts ++ [p],
          tempMarkerEnts := s.tempMarkerEnts ++ [s.nextId],
          entities := s.entities ++ [s.nextId],
          nextId := s.nextId + 1 }) := by
  simp [heightLeftClick]

theorem hstep_pts_le {fc : Point → Cartographic} {fr : ℝ → ℝ → ℝ → Point}
    (e : HEv) (s : HState) (hs : s.pts.length ≤ 1) :
    (hStep fc fr e s).pts.length ≤ 1 := by
  cases e with
  | toggle =>
    by_cases hd : s.isDrawing = true <;> simp [hStep, hStop, hStart, hd]
  | stop => simp [hStep, hStop]
  | clear => simp [hStep, hClear, hStop]
  | click p =>
    by_cases hd : s.isDrawing = true
    · cases p with
      | none => simpa [hStep, hd, heightLeftClick] using hs
      | some pos =>
        have he : hStep fc fr (HEv.click (some pos)) s =
            heightLeftClick fc fr (some pos) s := by simp [hStep, hd]
        rw [he, heightLeftClick_some]
        by_cases h2 : (s.pts ++ [pos]).length = 2
        · rw [if_pos h2]
          obtain ⟨a, b, hab⟩ := List.length_eq_two.mp h2
          have hpts : ({ s with
              pts := s.pts ++ [pos],
              tempMarkerEnts := s.tempMarkerEnts ++ [s.nextId],
              entities := s.entities ++ [s.nextId],
              nextId := s.nextId + 1 } : HState).pts = [a, b] := hab
          rw [(finalizeHeight_two hpts).1]
          simp
        · rw [if_neg h2]
          show (s.pts ++ [pos]).length ≤ 1
          have h2' : ¬ (s.pts.length + 1 = 2) := by simpa using h2
          rw [List.length_append]
          simp only [List.length_singleton]
          omega
    · simpa [hStep, hd] using hs

theorem hreachable_pts_le {fc : Point → Cartographic} {fr : ℝ → ℝ → ℝ → Point}
    {s : HState} (h : HReachable fc fr s) : s.pts.length ≤ 1 := by
  induction h with
  | init => simp [hInit]
  | step e h ih => exact hstep_pts_le e _ ih

/-- C10: the two-point height tool finalizes without any double-click: the
point buffer of every reachable state holds at most one point, and as soon as
the second valid point is clicked the measurement is finalized (three lines
and three labels are added) and the buffer is reset to empty, so the next
click starts a fresh measurement. -/
theorem C10_second_click_finalizes (fc : Point → Cartographic)
    (fr : ℝ → ℝ → ℝ → Point) (s : HState) (p : Point)
    (hr : HReachable fc fr s) :
    s.pts.length ≤ 1 ∧
    (s.pts.length = 1 →
      (heightLeftClick fc fr (some p) s).pts = [] ∧
      (heightLeftClick fc fr (some p) s).measuredLines.length =
        s.measuredLines.length + 3 ∧
      (heightLeftClick fc fr (some p) s).measuredLabels.length =
        s.measuredLabels.length + 3) := by
  refine ⟨hreachable_pts_le hr, ?_⟩
  intro h1
  obtain ⟨q, hq⟩ := List.length_eq_one.mp h1
  have h2 : (s.pts ++ [p]).length = 2 := by simp [hq]
  rw [heightLeftClick_some, if_pos h2]
  have hpts : ({ s with
      pts := s.pts ++ [p],
      tempMarkerEnts := s.tempMarkerEnts ++ [s.nextId],
      entities := s.entities ++ [s.nextId],
      nextId := s.nextId + 1 } : HState).pts = [q, p] := by
    show s.pts ++ [p] = [q, p]
    rw [hq]
    rfl
  obtain ⟨b1, b2, b3⟩ := @finalizeHeight_two fc fr _ _ _ hpts
  exact ⟨b1, b2, b3⟩

theorem C10_second_click_finalizes_witness :
    (heightLeftClick (fun p => ⟨p.1, p.2.1, p.2.2⟩) (fun a b c => (a, b, c))
      (some ((1 : ℝ), 0, 0))
      (hStep (fun p => ⟨p.1, p.2.1, p.2.2⟩) (fun a b c => (a, b, c))
        (HEv.click (some ((0 : ℝ), 0, 0)))
        (hStep (fun p => ⟨p.1, p.2.1, p.2.2⟩) (fun a b c => (a, b, c))
          HEv.toggle hInit))).pts = [] :=
  ((C10_second_click_finalizes (fun p => ⟨p.1, p.2.1, p.2.2⟩) (fun a b c => (a, b, c))
    (hStep (fun p => ⟨p.1, p.2.1, p.2.2⟩) (fun a b c => (a, b, c))
      (HEv.click (some ((0 : ℝ), 0, 0)))
      (hStep (fun p => ⟨p.1, p.2.1, p.2.2⟩) (fun a b c => (a, b, c))
        HEv.toggle hInit))
    ((1 : ℝ), 0, 0)
    (HReachable.step (HEv.click (some ((0 : ℝ), 0, 0)))
      (HReachable.step HEv.toggle HReachable.init))).2 rfl).1

end Kartan
